import Mathlib

/-!
Verification development for the message-orchestrator / CRM-funnel repository.

The definitions below are shallow embeddings of the Python sources:

* `Storage.set_crm_binding`, `Storage.upsert_contact`  (src/app/core/storage.py)
* `call_tool`                                          (src/app/ai/tools.py)
* `AmoCRMService` stage/question machinery, `update_lead_fields`,
  `change_lead_stage`, `get_lead_context`, `_resolve_enum_id`,
  `_build_custom_field_values`, `_request`              (src/app/crm/service.py)
* the `Hub.on_incoming_message` pipeline order          (src/app/core/hub.py)

Databases are modelled as association lists (SQLite tables keyed by their
primary key), machine-level nondeterminism (uuid4, wall-clock timestamps) is
passed in as explicit arguments, and HTTP calls are reified as emitted
`LeadPatch` values or, for the retry wrapper, as a stream of per-attempt
outcomes.  Candidate answer values are modelled by the universe the tool JSON
schema admits for `amocrm_update_lead_fields` (strings and integers, plus a
null marker); container-shaped candidates cannot reach these code paths
through the registered tools.
-/

/-- Row of the `crm_bindings` table (src/app/core/storage.py, schema lines 89-96). -/
structure CrmBinding where
  globalUserId : String
  contactId : Option Int
  leadId : Option Int
  leadStatusId : Option Int
  createdAt : Int
  updatedAt : Int
deriving DecidableEq, Repr

/-- The `crm_bindings` table: one row per `global_user_id` (primary key). -/
def CrmDb : Type := List (String × CrmBinding)

instance : DecidableEq CrmDb := by unfold CrmDb; infer_instance

/-- `Storage.get_crm_binding`: select the row keyed by the user id. -/
def getCrmBinding (db : CrmDb) (gid : String) : Option CrmBinding :=
  (db.find? (fun p => p.1 == gid)).map (fun p => p.2)

/-- SQL `COALESCE(excluded.field, stored.field)` on the incoming/stored pair. -/
def coalesce : Option Int → Option Int → Option Int
  | some x, _ => some x
  | none, y => y

/-- The `DO UPDATE SET` arm of `Storage.set_crm_binding`: each incoming null
field keeps the stored value, `updated_at` is set to the call time, and
`created_at` plus the key are untouched. -/
def mergeBinding (b : CrmBinding) (contactId leadId leadStatusId : Option Int) (now : Int) :
    CrmBinding :=
  { b with
    contactId := coalesce contactId b.contactId
    leadId := coalesce leadId b.leadId
    leadStatusId := coalesce leadStatusId b.leadStatusId
    updatedAt := now }

/-- `Storage.set_crm_binding`: insert-or-merge-upsert on the bindings table. -/
def setCrmBinding (db : CrmDb) (gid : String) (contactId leadId leadStatusId : Option Int)
    (now : Int) : CrmDb :=
  match getCrmBinding db gid with
  | none => (gid, ⟨gid, contactId, leadId, leadStatusId, now, now⟩) :: db
  | some _ =>
    db.map (fun p =>
      if p.1 == gid then (p.1, mergeBinding p.2 contactId leadId leadStatusId now) else p)

lemma getCrmBinding_map_update (db : CrmDb) (gid : String)
    (c l s : Option Int) (now : Int) :
    getCrmBinding
      (db.map (fun p => if p.1 == gid then (p.1, mergeBinding p.2 c l s now) else p)) gid
      = (getCrmBinding db gid).map (fun b => mergeBinding b c l s now) := by
  induction db with
  | nil => rfl
  | cons hd tl ih =>
    cases h : (hd.1 == gid) with
    | true =>
      simp [getCrmBinding, List.find?, h]
    | false =>
      simpa [getCrmBinding, List.find?, h] using ih

lemma getCrmBinding_set_self (db : CrmDb) (gid : String) (b : CrmBinding)
    (c l s : Option Int) (now : Int) (hb : getCrmBinding db gid = some b) :
    getCrmBinding (setCrmBinding db gid c l s now) gid = some (mergeBinding b c l s now) := by
  unfold setCrmBinding
  rw [hb]
  rw [getCrmBinding_map_update, hb]
  rfl

lemma getCrmBinding_map_update_other (db : CrmDb) (gid gid' : String)
    (c l s : Option Int) (now : Int) (h : gid' ≠ gid) :
    getCrmBinding
      (db.map (fun p => if p.1 == gid then (p.1, mergeBinding p.2 c l s now) else p)) gid'
      = getCrmBinding db gid' := by
  induction db with
  | nil => rfl
  | cons hd tl ih =>
    cases hk : (hd.1 == gid) with
    | true =>
      have hkey : hd.1 = gid := by simpa using hk
      have hne : (hd.1 == gid') = false := by
        simp [hkey]
        exact fun hc => h hc.symm
      simp [getCrmBinding, List.find?, hk, hne] at ih ⊢
      exact ih
    | false =>
      cases hk' : (hd.1 == gid') with
      | true => simp [getCrmBinding, List.find?, hk, hk']
      | false =>
        simp [getCrmBinding, List.find?, hk, hk'] at ih ⊢
        exact ih

lemma getCrmBinding_set_other (db : CrmDb) (gid gid' : String)
    (c l s : Option Int) (now : Int) (h : gid' ≠ gid) :
    getCrmBinding (setCrmBinding db gid c l s now) gid' = getCrmBinding db gid' := by
  unfold setCrmBinding
  cases hg : getCrmBinding db gid with
  | none =>
    have hne : (gid == gid') = false := by
      simp
      exact fun hc => h hc.symm
    simp [getCrmBinding, List.find?, hne]
  | some b =>
    exact getCrmBinding_map_update_other db gid gid' c l s now h

/-- C6: CRM-binding updates are merge-upserts: on an existing binding a null
incoming field (contact_id, lead_id, lead_status_id) preserves the stored
value and a non-null one replaces it; only `updated_at` among the other
stored fields changes, and no other user's row is touched. -/
theorem setCrmBinding_merge_upsert (db : CrmDb) (gid : String) (b : CrmBinding)
    (c l s : Option Int) (now : Int) (hb : getCrmBinding db gid = some b) :
    getCrmBinding (setCrmBinding db gid c l s now) gid
      = some { b with
          contactId := coalesce c b.contactId
          leadId := coalesce l b.leadId
          leadStatusId := coalesce s b.leadStatusId
          updatedAt := now }
    ∧ (∀ x : Option Int, coalesce none x = x)
    ∧ (∀ (x : Int) (y : Option Int), coalesce (some x) y = some x)
    ∧ (mergeBinding b c l s now).createdAt = b.createdAt
    ∧ (mergeBinding b c l s now).globalUserId = b.globalUserId
    ∧ ∀ gid', gid' ≠ gid →
        getCrmBinding (setCrmBinding db gid c l s now) gid' = getCrmBinding db gid' := by
  refine ⟨getCrmBinding_set_self db gid b c l s now hb, ?_, ?_, rfl, rfl, ?_⟩
  · intro x; rfl
  · intro x y; rfl
  · intro gid' h; exact getCrmBinding_set_other db gid gid' c l s now h

/-- Concrete instantiation of `setCrmBinding_merge_upsert`. -/
theorem setCrmBinding_merge_upsert_witness :
    getCrmBinding
        (setCrmBinding [("u", ⟨"u", some 7, none, some 100, 1, 1⟩)] "u" none (some 42) none 9) "u"
      = some { (⟨"u", some 7, none, some 100, 1, 1⟩ : CrmBinding) with
          contactId := coalesce none (some 7)
          leadId := coalesce (some 42) none
          leadStatusId := coalesce none (some 100)
          updatedAt := 9 }
    ∧ (∀ x : Option Int, coalesce none x = x)
    ∧ (∀ (x : Int) (y : Option Int), coalesce (some x) y = some x)
    ∧ (mergeBinding ⟨"u", some 7, none, some 100, 1, 1⟩ none (some 42) none 9).createdAt = 1
    ∧ (mergeBinding ⟨"u", some 7, none, some 100, 1, 1⟩ none (some 42) none 9).globalUserId = "u"
    ∧ ∀ gid', gid' ≠ "u" →
        getCrmBinding
            (setCrmBinding [("u", ⟨"u", some 7, none, some 100, 1, 1⟩)] "u" none (some 42) none 9)
            gid'
          = getCrmBinding [("u", (⟨"u", some 7, none, some 100, 1, 1⟩ : CrmBinding))] gid' :=
  setCrmBinding_merge_upsert [("u", ⟨"u", some 7, none, some 100, 1, 1⟩)] "u"
    ⟨"u", some 7, none, some 100, 1, 1⟩ none (some 42) none 9 rfl

/-- Row of the `contacts` table (src/app/core/storage.py, schema lines 38-45):
`(channel, platform_user_id)` is the primary key. -/
structure ContactRow where
  platformChatId : String
  globalUserId : String
  createdAt : Int
deriving DecidableEq, Repr

/-- The `contacts` table keyed by `(channel, platform_user_id)`. -/
def ContactsDb : Type := List ((String × String) × ContactRow)

instance : DecidableEq ContactsDb := by unfold ContactsDb; infer_instance

/-- Select on the `contacts` primary key. -/
def lookupContact (db : ContactsDb) (channel puid : String) : Option ContactRow :=
  (db.find? (fun p => p.1.1 == channel && p.1.2 == puid)).map (fun p => p.2)

/-- `Storage.upsert_contact` (storage.py lines 123-142): under the storage
lock, read the row for `(channel, platform_user_id)`; if present return the
stored `global_user_id` with `created = false`; otherwise mint a fresh id
(`uuid.uuid4()`, passed here as `freshGid`) and insert the row.  Returns
`(global_user_id, created, table)`. -/
def upsertContact (db : ContactsDb) (channel puid chatId freshGid : String) (now : Int) :
    String × Bool × ContactsDb :=
  match lookupContact db channel puid with
  | some row => (row.globalUserId, false, db)
  | none => (freshGid, true, ((channel, puid), ⟨chatId, freshGid, now⟩) :: db)

/-- One recorded `upsert_contact` call, for reasoning about call sequences. -/
structure UpsertCall where
  channel : String
  platformUserId : String
  platformChatId : String
  freshGid : String
  now : Int

/-- Replay a sequence of `upsert_contact` calls against the table. -/
def runUpserts (db : ContactsDb) (calls : List UpsertCall) : ContactsDb :=
  calls.foldl
    (fun d c => (upsertContact d c.channel c.platformUserId c.platformChatId c.freshGid c.now).2.2)
    db

lemma upsertContact_preserves (db : ContactsDb) (ch' puid' chat' g' : String) (n' : Int)
    (ch puid : String) (row : ContactRow) (h : lookupContact db ch puid = some row) :
    lookupContact (upsertContact db ch' puid' chat' g' n').2.2 ch puid = some row := by
  unfold upsertContact
  cases hg : lookupContact db ch' puid' with
  | some r => simpa using h
  | none =>
    cases hk : (ch' == ch && puid' == puid) with
    | true =>
      exfalso
      have hc : ch' = ch ∧ puid' = puid := by
        constructor
        · have := (Bool.and_eq_true _ _).mp hk
          simpa using this.1
        · have := (Bool.and_eq_true _ _).mp hk
          simpa using this.2
      rw [hc.1, hc.2] at hg
      rw [hg] at h
      exact Option.noConfusion h
    | false =>
      simpa [lookupContact, List.find?, hk] using h

lemma runUpserts_preserves (calls : List UpsertCall) :
    ∀ (db : ContactsDb) (ch puid : String) (row : ContactRow),
      lookupContact db ch puid = some row →
      lookupContact (runUpserts db calls) ch puid = some row := by
  induction calls with
  | nil => intro db ch puid row h; simpa [runUpserts] using h
  | cons c rest ih =>
    intro db ch puid row h
    have step := upsertContact_preserves db c.channel c.platformUserId c.platformChatId
      c.freshGid c.now ch puid row h
    simpa [runUpserts] using ih _ ch puid row step

/-- C7: repeating `upsert_contact` on the same `(channel, platform_user_id)`
returns the same `global_user_id`, the second call reports `created = false`
and writes nothing, and once a global id is stored for a key no later
sequence of `upsert_contact` calls ever changes it. -/
theorem upsertContact_idempotent_stable (db : ContactsDb)
    (ch puid chat1 g1 chat2 g2 : String) (n1 n2 : Int) :
    (upsertContact (upsertContact db ch puid chat1 g1 n1).2.2 ch puid chat2 g2 n2).1
      = (upsertContact db ch puid chat1 g1 n1).1
    ∧ (upsertContact (upsertContact db ch puid chat1 g1 n1).2.2 ch puid chat2 g2 n2).2.1 = false
    ∧ (upsertContact (upsertContact db ch puid chat1 g1 n1).2.2 ch puid chat2 g2 n2).2.2
      = (upsertContact db ch puid chat1 g1 n1).2.2
    ∧ (∀ row, lookupContact db ch puid = some row →
        (upsertContact db ch puid chat1 g1 n1).1 = row.globalUserId
        ∧ (upsertContact db ch puid chat1 g1 n1).2.1 = false)
    ∧ (∀ (row : ContactRow) (calls : List UpsertCall),
        lookupContact db ch puid = some row →
        lookupContact (runUpserts db calls) ch puid = some row) := by
  cases hg : lookupContact db ch puid with
  | some row =>
    refine ⟨?_, ?_, ?_, ?_, ?_⟩
    · simp [upsertContact, hg]
    · simp [upsertContact, hg]
    · simp [upsertContact, hg]
    · intro r hr
      have hrr : row = r := Option.some.inj hr
      subst hrr
      simp [upsertContact, hg]
    · intro row' calls h
      have hrr : row = row' := Option.some.inj h
      subst hrr
      exact runUpserts_preserves calls db ch puid row hg
  | none =>
    have hsecond : lookupContact (((ch, puid), ⟨chat1, g1, n1⟩) :: db) ch puid
        = some ⟨chat1, g1, n1⟩ := by
      simp [lookupContact, List.find?]
    refine ⟨?_, ?_, ?_, ?_, ?_⟩
    · simp [upsertContact, hg, hsecond]
    · simp [upsertContact, hg, hsecond]
    · simp [upsertContact, hg, hsecond]
    · intro r hr
      exact Option.noConfusion hr
    · intro row' calls h
      exact Option.noConfusion h

/-- Concrete instantiation of `upsertContact_idempotent_stable`. -/
theorem upsertContact_idempotent_stable_witness :
    lookupContact [(("tg", "42"), (⟨"c1", "G", 0⟩ : ContactRow))] "tg" "42" = some ⟨"c1", "G", 0⟩
    ∧ (upsertContact [(("tg", "42"), ⟨"c1", "G", 0⟩)] "tg" "42" "c2" "H" 5).1 = "G"
    ∧ (upsertContact [(("tg", "42"), ⟨"c1", "G", 0⟩)] "tg" "42" "c2" "H" 5).2.1 = false
    ∧ lookupContact
        (runUpserts [(("tg", "42"), ⟨"c1", "G", 0⟩)]
          [⟨"tg", "42", "c3", "K", 6⟩, ⟨"vk", "9", "c4", "L", 7⟩]) "tg" "42"
      = some ⟨"c1", "G", 0⟩ := by
  have h := upsertContact_idempotent_stable
    [(("tg", "42"), ⟨"c1", "G", 0⟩)] "tg" "42" "c2" "H" "c2" "H" 5 5
  refine ⟨rfl, ?_, ?_, ?_⟩
  · exact (h.2.2.2.1 ⟨"c1", "G", 0⟩ rfl).1
  · exact (h.2.2.2.1 ⟨"c1", "G", 0⟩ rfl).2
  · exact h.2.2.2.2 ⟨"c1", "G", 0⟩ [⟨"tg", "42", "c3", "K", 6⟩, ⟨"vk", "9", "c4", "L", 7⟩] rfl

/-- Tool registry, a name-to-handler map (src/app/ai/tools.py `_TOOLS`).
A handler either returns a result string or raises, modelled by `Except`
with the raised message as the error. -/
def ToolRegistry (α : Type) : Type := List (String × (α → Except String String))

/-- The registry lookup `_TOOLS.get(name)`. -/
def findTool {α : Type} (reg : ToolRegistry α) (name : String) :
    Option (α → Except String String) :=
  (reg.find? (fun p => p.1 == name)).map (fun p => p.2)

/-- `call_tool` (tools.py lines 99-110): an unknown name yields the
"Tool {name!r} not found" string; a found handler is run with every raised
exception converted to "tool_error: {e}".  The `String` return type (rather
than `Except`) is the no-raise boundary itself. -/
def callTool {α : Type} (reg : ToolRegistry α) (name : String) (args : α) : String :=
  match findTool reg name with
  | none => "Tool \x27" ++ name ++ "\x27 not found"
  | some h =>
    match h args with
    | Except.ok s => s
    | Except.error e => "tool_error: " ++ e

/-- C5: tool dispatch never raises: `call_tool` is a total function into
strings; an unregistered name yields the not-found string (not an
exception), and a handler that throws any exception yields
"tool_error: {message}". -/
theorem callTool_never_raises {α : Type} (reg : ToolRegistry α) (name : String) (args : α) :
    (findTool reg name = none →
      callTool reg name args = "Tool \x27" ++ name ++ "\x27 not found")
    ∧ (∀ h, findTool reg name = some h →
        (∀ e, h args = Except.error e → callTool reg name args = "tool_error: " ++ e)
        ∧ (∀ s, h args = Except.ok s → callTool reg name args = s)) := by
  constructor
  · intro hn
    simp [callTool, hn]
  · intro h hh
    constructor
    · intro e he
      simp [callTool, hh, he]
    · intro s hs
      simp [callTool, hh, hs]

/-- Concrete instantiation of `callTool_never_raises`: an unregistered name
and a throwing handler both come back as plain strings. -/
theorem callTool_never_raises_witness :
    callTool ([] : ToolRegistry Unit) "missing" () = "Tool \x27missing\x27 not found"
    ∧ callTool [("boom", fun _ : Unit => Except.error "kaput")] "boom" () = "tool_error: kaput" := by
  constructor
  · exact (callTool_never_raises ([] : ToolRegistry Unit) "missing" ()).1 rfl
  · exact ((callTool_never_raises [("boom", fun _ : Unit => Except.error "kaput")] "boom" ()).2
      (fun _ => Except.error "kaput") rfl).1 "kaput" rfl

/-- An entry of a question's `enums` option list (service.py `Question.enums`).
The source reads ids with `int(enum.get("id"))` inside try/except and values
with `enum.get("value")`; a missing or unparseable field is modelled as
`none`. -/
structure EnumOption where
  id : Option Int
  value : Option String
deriving DecidableEq, Repr

/-- `Question` dataclass (service.py lines 23-28). -/
structure Question where
  id : Int
  name : String
  type : String
  enums : List EnumOption
deriving DecidableEq, Repr

/-- `Stage` dataclass (service.py lines 31-36). -/
structure Stage where
  index : Nat
  name : String
  statusId : Option Int
  questions : List Question
deriving DecidableEq, Repr

/-- The immutable funnel definition held by `AmoCRMService`: the ordered
stage list `self._stages` and the configured status-id list
`self._stage_ids`. -/
structure Funnel where
  stages : List Stage
  stageIds : List Int
deriving DecidableEq, Repr

/-- The flattened `self._questions` list. -/
def allQuestions (f : Funnel) : List Question :=
  f.stages.flatMap (fun st => st.questions)

/-- The `self._questions_by_id` dict: for duplicate ids the later question
wins, hence the lookup over the reversed flattened list. -/
def questionsById (f : Funnel) (qid : Int) : Option Question :=
  (allQuestions f).reverse.find? (fun q => q.id == qid)

/-- The `self._question_stage_index` dict mapping a question id to the index
of its owning stage (later entries win, as in the dict comprehension). -/
def questionStageIndex (f : Funnel) (qid : Int) : Option Nat :=
  ((f.stages.flatMap (fun st => st.questions.map (fun q => (q.id, st.index)))).reverse.find?
    (fun p => p.1 == qid)).map (fun p => p.2)

/-- `AmoCRMService._stage_index_from_status` (service.py lines 468-479):
first the `self._stages_by_status` dict (later stages win), then a fallback
positional lookup in `self._stage_ids`, else unknown. -/
def stageIndexFromStatus (f : Funnel) (statusId : Option Int) : Option Nat :=
  match statusId with
  | none => none
  | some s =>
    match f.stages.reverse.find? (fun st => st.statusId == some s) with
    | some st => some st.index
    | none =>
      if f.stageIds = [] then none
      else f.stageIds.findIdx? (fun x => x == s)

/-- `AmoCRMService._current_stage_index` (service.py lines 481-489): default
stage 0 for a missing binding, missing status, or unknown status, otherwise
the resolved index clamped into `[0, len(stages) - 1]`. -/
def currentStageIndex (f : Funnel) (b : Option CrmBinding) : Nat :=
  if f.stages = [] then 0
  else
    match b with
    | none => 0
    | some bb =>
      match bb.leadStatusId with
      | none => 0
      | some s =>
        match stageIndexFromStatus f (some s) with
        | none => 0
        | some idx => min (max idx 0) (f.stages.length - 1)

/-- Candidate answer values reaching `_build_custom_field_values` /
`_resolve_enum_id`.  The `amocrm_update_lead_fields` JSON schema restricts
each value to a string or an integer; `vNone` models an explicit JSON null. -/
inductive CrmVal where
  | vNone
  | vInt (n : Int)
  | vStr (s : String)
deriving DecidableEq, Repr

/-- Python `str()` on the modelled value universe. -/
def pyStr : CrmVal → String
  | CrmVal.vNone => "None"
  | CrmVal.vInt n => toString n
  | CrmVal.vStr s => s

/-- Python `str.strip()`: drop whitespace from both ends.  (Defined over
`String.data` so that it evaluates inside the kernel.) -/
def pyStrip (s : String) : String :=
  ⟨((s.data.dropWhile Char.isWhitespace).reverse.dropWhile Char.isWhitespace).reverse⟩

/-- Python `str.lower()` on the ASCII range. -/
def pyLower (s : String) : String :=
  ⟨s.data.map Char.toLower⟩

/-- Python `text.isdigit()` followed by `int(text)`: all-digit nonempty
strings parse, everything else does not. -/
def pyParseNat (s : String) : Option Nat :=
  if s.data ≠ [] ∧ s.data.all Char.isDigit then
    some (s.data.foldl (fun acc c => acc * 10 + (c.toNat - 48)) 0)
  else none

/-- Python `sep.join(parts)`. -/
def pyJoin (sep : String) (parts : List String) : String :=
  ⟨((parts.map String.data).intersperse sep.data).flatten⟩

/-- The enum scan shared by the numeric arms of `_resolve_enum_id`
(service.py lines 709-718): return the first option whose parsed id equals
the candidate id. -/
def matchCandidateId (q : Question) (cand : Int) : Option Int :=
  (q.enums.find? (fun e => e.id == some cand)).bind (fun e => e.id)

/-- `AmoCRMService._resolve_enum_id` on schema-shaped values (service.py
lines 667-718): `None` never resolves; an integer is matched against parsed
option ids; a string is stripped, an all-digit string is matched as a
numeric id, and any other string is matched case-insensitively against the
stripped option labels (options whose id fails to parse are skipped). -/
def resolveEnumId (q : Question) : CrmVal → Option Int
  | CrmVal.vNone => none
  | CrmVal.vInt n => matchCandidateId q n
  | CrmVal.vStr s =>
    let text := pyStrip s
    if text = "" then none
    else
      match pyParseNat text with
      | some n => matchCandidateId q (Int.ofNat n)
      | none =>
        (q.enums.find? (fun e =>
          match e.value, e.id with
          | some v, some _ => pyLower (pyStrip v) == pyLower text
          | _, _ => false)).bind (fun e => e.id)

/-- `AmoCRMService._normalize_free_value` on schema-shaped values (service.py
lines 720-738): `None` stays unset, anything else is `str(...)` stripped,
with the empty string collapsing to unset. -/
def normalizeFreeValue : CrmVal → Option String
  | CrmVal.vNone => none
  | v =>
    let t := pyStrip (pyStr v)
    if t = "" then none else some t

/-- One entry of an AmoCRM `values` payload: either an `enum_id` reference
or a free-text `value`. -/
inductive CFV where
  | enumId (id : Int)
  | value (s : String)
deriving DecidableEq, Repr

/-- `CFV.enumId` discriminator. -/
def CFV.isEnum : CFV → Bool
  | CFV.enumId _ => true
  | CFV.value _ => false

/-- The `select` arm of `_build_custom_field_values` (service.py lines
635-645): the first resolving candidate wins as an `enum_id`; otherwise the
first normalizable candidate is kept as a free-text fallback. -/
def selectLoop (q : Question) : List CrmVal → Option String → List CFV
  | [], fallback =>
    match fallback with
    | some fv => [CFV.value fv]
    | none => []
  | v :: rest, fallback =>
    match resolveEnumId q v with
    | some m => [CFV.enumId m]
    | none =>
      match fallback with
      | some fv => selectLoop q rest (some fv)
      | none => selectLoop q rest (normalizeFreeValue v)

/-- Accumulator of the `multiselect` arm: the `seen_ids` / `seen_texts` sets
and the `enum_values` / `free_values` output lists. -/
structure MsAcc where
  seenIds : List Int
  seenTexts : List String
  enumVals : List CFV
  freeVals : List CFV
deriving DecidableEq, Repr

/-- The `multiselect` loop of `_build_custom_field_values` (service.py lines
646-661): an unseen enum match is recorded by id; any other candidate falls
through to the free-text branch, which dedupes on the normalized text. -/
def msLoop (q : Question) : List CrmVal → MsAcc → MsAcc
  | [], acc => acc
  | v :: rest, acc =>
    match resolveEnumId q v with
    | some m =>
      if m ∈ acc.seenIds then
        match normalizeFreeValue v with
        | some t =>
          if t ∈ acc.seenTexts then msLoop q rest acc
          else msLoop q rest { acc with
            seenTexts := acc.seenTexts ++ [t], freeVals := acc.freeVals ++ [CFV.value t] }
        | none => msLoop q rest acc
      else msLoop q rest { acc with
        seenIds := acc.seenIds ++ [m], enumVals := acc.enumVals ++ [CFV.enumId m] }
    | none =>
      match normalizeFreeValue v with
      | some t =>
        if t ∈ acc.seenTexts then msLoop q rest acc
        else msLoop q rest { acc with
          seenTexts := acc.seenTexts ++ [t], freeVals := acc.freeVals ++ [CFV.value t] }
      | none => msLoop q rest acc

/-- The text-style arms of `_build_custom_field_values`: keep the `str()` of
every candidate whose stripped form is nonempty. -/
def textParts (rawValues : List CrmVal) : List String :=
  rawValues.filterMap (fun v => if pyStrip (pyStr v) = "" then none else some (pyStr v))

/-- `AmoCRMService._build_custom_field_values` (service.py lines 629-665),
dispatching on the question type exactly as the source does. -/
def buildCustomFieldValues (q : Question) (rawValues : List CrmVal) : List CFV :=
  if q.type = "text" ∨ q.type = "textarea" ∨ q.type = "numeric" ∨ q.type = "url" then
    if textParts rawValues = [] then []
    else [CFV.value (pyJoin "\n" (textParts rawValues))]
  else if q.type = "select" then
    selectLoop q rawValues none
  else if q.type = "multiselect" then
    (msLoop q rawValues ⟨[], [], [], []⟩).enumVals ++ (msLoop q rawValues ⟨[], [], [], []⟩).freeVals
  else
    if textParts rawValues = [] then []
    else [CFV.value (pyJoin "\n" (textParts rawValues))]

/-- One element of the `answers` argument of `update_lead_fields`: the raw
`question_id` (already run through `int(...)`, `none` when that parse
failed) and the `values` list. -/
structure AnswerItem where
  questionId : Option Int
  values : List CrmVal
deriving DecidableEq, Repr

/-- One `{"field_id": ..., "values": [...]}` entry of a lead PATCH body. -/
structure FieldPayload where
  fieldId : Int
  values : List CFV
deriving DecidableEq, Repr

/-- An outbound AmoCRM lead PATCH, reified instead of performed. -/
inductive LeadPatch where
  | fields (leadId : Int) (payload : List FieldPayload)
  | status (leadId : Int) (statusId : Int)
deriving DecidableEq, Repr

/-- Payload carried by a field PATCH (empty for a status PATCH). -/
def LeadPatch.fieldsPayload : LeadPatch → List FieldPayload
  | LeadPatch.fields _ payload => payload
  | LeadPatch.status _ _ => []

/-- The stage gate of `update_lead_fields` for one question id: gated when
the owning stage's index is known and exceeds the current stage index. -/
def answerGatedIdx (f : Funnel) (cur : Nat) (qid : Int) : Bool :=
  match questionStageIndex f qid with
  | some qsi => decide (cur < qsi)
  | none => false

/-- Python truthiness of `binding and binding.lead_id`: a binding row with a
present, nonzero lead id. -/
def bindingHasLead : Option CrmBinding → Bool
  | none => false
  | some b =>
    match b.leadId with
    | none => false
    | some lid => decide (lid ≠ 0)

/-- The answer-processing loop of `update_lead_fields` (service.py lines
300-324): walks the answers, remembering whether anything was gated out and
accumulating the rendered payload entries in order. -/
def updateLoop (f : Funnel) (cur : Nat) :
    List AnswerItem → Bool → List FieldPayload → Bool × List FieldPayload
  | [], skipped, payload => (skipped, payload)
  | item :: rest, skipped, payload =>
    match item.questionId with
    | none => updateLoop f cur rest skipped payload
    | some qid =>
      match questionsById f qid with
      | none => updateLoop f cur rest skipped payload
      | some q =>
        if answerGatedIdx f cur qid then updateLoop f cur rest true payload
        else
          if buildCustomFieldValues q item.values = [] then updateLoop f cur rest skipped payload
          else updateLoop f cur rest skipped (payload ++ [⟨q.id, buildCustomFieldValues q item.values⟩])

/-- `AmoCRMService.update_lead_fields` (service.py lines 288-336), returning
the outcome string and the list of PATCH requests it issues. -/
def updateLeadFields (f : Funnel) (db : CrmDb) (gid : String) (answers : List AnswerItem) :
    String × List LeadPatch :=
  match getCrmBinding db gid with
  | none => ("lead_not_found", [])
  | some b =>
    match b.leadId with
    | none => ("lead_not_found", [])
    | some lid =>
      if lid = 0 then ("lead_not_found", [])
      else
        match updateLoop f (currentStageIndex f (some b)) answers false [] with
        | (skipped, payload) =>
          if payload = [] then
            (if skipped then "stage_not_reached" else "no_fields", [])
          else ("ok", [LeadPatch.fields lid payload])

/-- The current index used by `change_lead_stage` (service.py lines
352-354): `_stage_index_from_status` with a `-1` default — unlike
`_current_stage_index`, which defaults to stage 0. -/
def currentIdxInt (f : Funnel) (b : CrmBinding) : Int :=
  match stageIndexFromStatus f b.leadStatusId with
  | none => -1
  | some i => (i : Int)

/-- `AmoCRMService.change_lead_stage` (service.py lines 338-367): validate
the target stage, enforce the at-most-one-step / no-regression ordering, and
on success PATCH the lead and persist the new status into the binding.
Returns the outcome, the PATCHes issued, and the resulting bindings table. -/
def changeLeadStage (f : Funnel) (db : CrmDb) (gid : String) (stageId : Int) (now : Int) :
    String × List LeadPatch × CrmDb :=
  match getCrmBinding db gid with
  | none => ("lead_not_found", [], db)
  | some b =>
    match b.leadId with
    | none => ("lead_not_found", [], db)
    | some lid =>
      if lid = 0 then ("lead_not_found", [], db)
      else
        match stageIndexFromStatus f (some stageId) with
        | none => ("invalid_stage", [], db)
        | some targetIndex =>
          if (targetIndex : Int) > currentIdxInt f b + 1 then
            ("stage_out_of_order", [], db)
          else if 0 ≤ currentIdxInt f b ∧ (targetIndex : Int) < currentIdxInt f b then
            ("stage_regression_not_allowed", [], db)
          else
            ("ok", [LeadPatch.status lid stageId],
              setCrmBinding db gid none none (some stageId) now)

/-- The stage index stored for a user, with the same `-1` convention as
`change_lead_stage` for a missing binding or unresolvable status. -/
def trackIdx (f : Funnel) (db : CrmDb) (gid : String) : Int :=
  match getCrmBinding db gid with
  | none => -1
  | some b => currentIdxInt f b

/-- Replay a sequence of `change_lead_stage` calls `(stage_id, now)`. -/
def runChangeCalls (f : Funnel) (gid : String) (db : CrmDb) (calls : List (Int × Int)) : CrmDb :=
  calls.foldl (fun d c => (changeLeadStage f d gid c.1 c.2).2.2) db

/-- The stage lookup performed by `get_lead_context` (service.py lines
369-382): after the empty-funnel early return, the current stage object is
read at `_current_stage_index` and the next stage at the following index. -/
def getLeadContextStages (f : Funnel) (db : CrmDb) (gid : String) : Option (Stage × Option Stage) :=
  if f.stages = [] then none
  else
    (f.stages[currentStageIndex f (getCrmBinding db gid)]?).map
      (fun st => (st, f.stages[currentStageIndex f (getCrmBinding db gid) + 1]?))

/-- The observable steps of `Hub.on_incoming_message` (src/app/core/hub.py
lines 78-296), in source order. -/
inductive HubStep where
  | upsertContact
  | crmEnsureContactAndLead
  | crmGetLeadContext
  | saveInboundMessage
  | assembleAiInput
  | aiGenerate
  | saveAiResponse
  | saveToolInvocations
  | sendFallbackReply
deriving DecidableEq, Repr

/-- The pipeline of `Hub.on_incoming_message` as the ordered list of its
steps: identity upsert; then, when a CRM service is configured, the
contact/lead ensure and the lead-context fetch; then the inbound-message
persist; then context assembly and the AI (or fallback) tail. -/
def hubSteps (crmConfigured aiConfigured : Bool) : List HubStep :=
  [HubStep.upsertContact]
    ++ (if crmConfigured then [HubStep.crmEnsureContactAndLead, HubStep.crmGetLeadContext] else [])
    ++ [HubStep.saveInboundMessage, HubStep.assembleAiInput]
    ++ (if aiConfigured then
          [HubStep.aiGenerate, HubStep.saveAiResponse, HubStep.saveToolInvocations]
        else [HubStep.saveAiResponse, HubStep.sendFallbackReply])

/-- Position of a step in a pipeline trace. -/
def stepPos (steps : List HubStep) (s : HubStep) : Nat :=
  steps.findIdx (fun x => x == s)

/-- Outcome of a single HTTP attempt inside `AmoCRMService._request`: either
a transport failure (`httpx.HTTPError`) or a response with its status code
and body. -/
inductive AttemptOutcome where
  | transport (msg : String)
  | response (status : Nat) (body : String)
deriving DecidableEq, Repr

/-- Error surfaced by `_request`: the transport error, or the `AmoCRMError`
built from a status and body (service.py line 750). -/
inductive ReqError where
  | transportErr (msg : String)
  | amoError (status : Nat) (body : String)
deriving DecidableEq, Repr

/-- The body of one retry attempt (service.py lines 747-751): a transport
failure raises, a response with status `>= 400` raises `AmoCRMError`, and
any other response is returned. -/
def attemptResult : AttemptOutcome → Except ReqError (Nat × String)
  | AttemptOutcome.transport m => Except.error (ReqError.transportErr m)
  | AttemptOutcome.response s b =>
    if 400 ≤ s then Except.error (ReqError.amoError s b) else Except.ok (s, b)

/-- Whether an attempt outcome makes `_request` retry (both raised exception
types are in the `retry_if_exception_type` set). -/
def attemptFails (o : AttemptOutcome) : Bool :=
  match attemptResult o with
  | Except.error _ => true
  | Except.ok _ => false

/-- The tenacity `wait_exponential(multiplier=1, min=1, max=8)` schedule:
the wait after the n-th failed attempt. -/
def tenacityWait (attemptNumber : Nat) : Nat :=
  min 8 (max 1 (1 * 2 ^ (attemptNumber - 1)))

/-- `AmoCRMService._request` (service.py lines 740-751): the
`AsyncRetrying(stop_after_attempt(3), wait_exponential(multiplier=1, min=1,
max=8), reraise=True)` loop unrolled over a stream of per-attempt outcomes.
Returns the final result, the number of attempts made, and the waits slept
between attempts. -/
def requestRetry (att : Nat → AttemptOutcome) :
    Except ReqError (Nat × String) × Nat × List Nat :=
  match attemptResult (att 1) with
  | Except.ok r => (Except.ok r, 1, [])
  | Except.error _ =>
    match attemptResult (att 2) with
    | Except.ok r => (Except.ok r, 2, [tenacityWait 1])
    | Except.error _ =>
      (attemptResult (att 3), 3, [tenacityWait 1, tenacityWait 2])

/-- Demo funnel stage 0 (status 100, one text question with id 11). -/
def demoStage0 : Stage := ⟨0, "S0", some 100, [⟨11, "Q0", "text", []⟩]⟩

/-- Demo funnel stage 1 (status 200, one text question with id 22). -/
def demoStage1 : Stage := ⟨1, "S1", some 200, [⟨22, "Q1", "text", []⟩]⟩

/-- A two-stage demo funnel with configured stage ids [100, 200]. -/
def demoFunnel : Funnel := ⟨[demoStage0, demoStage1], [100, 200]⟩

/-- Demo binding with a lead at stage 0's status. -/
def demoB0 : CrmBinding := ⟨"u", some 5, some 1, some 100, 0, 0⟩

/-- Bindings table holding `demoB0`. -/
def demoDb0 : CrmDb := [("u", demoB0)]

/-- Demo binding with a lead whose stored status 999 resolves to no stage. -/
def demoB999 : CrmBinding := ⟨"u", some 5, some 1, some 999, 0, 0⟩

/-- Bindings table holding `demoB999`. -/
def demoDb999 : CrmDb := [("u", demoB999)]

lemma currentStageIndex_lt (f : Funnel) (b : Option CrmBinding) (h : f.stages ≠ []) :
    currentStageIndex f b < f.stages.length := by
  have hlen : 0 < f.stages.length := List.length_pos.mpr h
  unfold currentStageIndex
  split
  · exact hlen
  · split
    · exact hlen
    · split
      · exact hlen
      · split
        · exact hlen
        · rename_i idx _
          have hmin : (max idx 0) ⊓ (f.stages.length - 1) ≤ f.stages.length - 1 :=
            min_le_right _ _
          omega

/-- C10: with a nonempty funnel the derived current stage index is always in
`[0, len(stages) - 1]`, so `get_lead_context`'s current-stage lookup is in
bounds and never fails — for every bindings table, including absent bindings
and unresolvable status values. -/
theorem currentStageIndex_in_bounds (f : Funnel) (db : CrmDb) (gid : String)
    (h : f.stages ≠ []) :
    currentStageIndex f (getCrmBinding db gid) < f.stages.length
    ∧ (f.stages[currentStageIndex f (getCrmBinding db gid)]?).isSome
    ∧ ∃ st next, getLeadContextStages f db gid = some (st, next) := by
  have h1 := currentStageIndex_lt f (getCrmBinding db gid) h
  have h2 : f.stages[currentStageIndex f (getCrmBinding db gid)]?
      = some (f.stages.get ⟨currentStageIndex f (getCrmBinding db gid), h1⟩) := by
    rw [List.getElem?_eq_getElem h1]
    rfl
  refine ⟨h1, by simp [h2], ?_⟩
  refine ⟨f.stages.get ⟨currentStageIndex f (getCrmBinding db gid), h1⟩,
    f.stages[currentStageIndex f (getCrmBinding db gid) + 1]?, ?_⟩
  unfold getLeadContextStages
  rw [if_neg h, h2]
  rfl

/-- Concrete instantiation of `currentStageIndex_in_bounds` on the demo
funnel with an unresolvable stored status. -/
theorem currentStageIndex_in_bounds_witness :
    currentStageIndex demoFunnel (getCrmBinding demoDb999 "u") < demoFunnel.stages.length
    ∧ (demoFunnel.stages[currentStageIndex demoFunnel (getCrmBinding demoDb999 "u")]?).isSome
    ∧ ∃ st next, getLeadContextStages demoFunnel demoDb999 "u" = some (st, next) :=
  currentStageIndex_in_bounds demoFunnel demoDb999 "u" (by decide)

/-- C8 counterexample: in the pipeline actually coded in
`Hub.on_incoming_message` with a CRM service configured, the inbound-message
persist does not precede the CRM ensure step — the CRM ensure (and context
fetch) comes first. -/
theorem hub_persist_order_cex :
    ¬ stepPos (hubSteps true true) HubStep.saveInboundMessage
        < stepPos (hubSteps true true) HubStep.crmEnsureContactAndLead
    ∧ stepPos (hubSteps true true) HubStep.crmEnsureContactAndLead
        < stepPos (hubSteps true true) HubStep.saveInboundMessage := by
  decide

/-- C8 amended: whenever the CRM collaborator is configured, the CRM
contact/lead ensure and the stage-context fetch precede the inbound-message
persist (the reverse of the claimed order), and the inbound persist still
always happens. -/
theorem hub_crm_precedes_persist (crm ai : Bool) (h : crm = true) :
    HubStep.saveInboundMessage ∈ hubSteps crm ai
    ∧ stepPos (hubSteps crm ai) HubStep.crmEnsureContactAndLead
        < stepPos (hubSteps crm ai) HubStep.saveInboundMessage
    ∧ stepPos (hubSteps crm ai) HubStep.crmGetLeadContext
        < stepPos (hubSteps crm ai) HubStep.saveInboundMessage
    ∧ HubStep.crmEnsureContactAndLead ∈ hubSteps crm ai := by
  subst h
  cases ai <;> decide

/-- Concrete instantiation of `hub_crm_precedes_persist`. -/
theorem hub_crm_precedes_persist_witness :
    HubStep.saveInboundMessage ∈ hubSteps true true
    ∧ stepPos (hubSteps true true) HubStep.crmEnsureContactAndLead
        < stepPos (hubSteps true true) HubStep.saveInboundMessage
    ∧ stepPos (hubSteps true true) HubStep.crmGetLeadContext
        < stepPos (hubSteps true true) HubStep.saveInboundMessage
    ∧ HubStep.crmEnsureContactAndLead ∈ hubSteps true true :=
  hub_crm_precedes_persist true true rfl

instance : DecidableEq (Except ReqError (Nat × String)) := fun a b =>
  match a, b with
  | Except.ok x, Except.ok y =>
    match decEq x y with
    | isTrue h => isTrue (by rw [h])
    | isFalse h => isFalse (by intro hc; injection hc; contradiction)
  | Except.error x, Except.error y =>
    match decEq x y with
    | isTrue h => isTrue (by rw [h])
    | isFalse h => isFalse (by intro hc; injection hc; contradiction)
  | Except.ok _, Except.error _ => isFalse (by intro hc; exact Except.noConfusion hc)
  | Except.error _, Except.ok _ => isFalse (by intro hc; exact Except.noConfusion hc)

/-- C9 counterexample: a 301 response is non-2xx, yet `_request` returns it
as a success after a single attempt — it is neither retried nor turned into
an error, because the code only raises for statuses `>= 400`. -/
theorem request_non2xx_not_retried_cex :
    requestRetry (fun _ => AttemptOutcome.response 301 "moved")
      = (Except.ok (301, "moved"), 1, [])
    ∧ ¬ (200 ≤ 301 ∧ 301 < 300)
    ∧ attemptFails (AttemptOutcome.response 301 "moved") = false := by
  decide

/-- C9 amended: every CRM HTTP call goes through the single retry wrapper:
at most 3 attempts; an attempt is retried exactly when it fails with a
transport error or receives a response with status `>= 400` (the error
carrying status and body); the exponential backoff has base 1s and cap 8s,
sleeping 1s then 2s here; exhaustion surfaces the final error. -/
theorem requestRetry_spec (att : Nat → AttemptOutcome) :
    (∀ o : AttemptOutcome, attemptFails o = true ↔
        ((∃ m, o = AttemptOutcome.transport m)
          ∨ (∃ s b, o = AttemptOutcome.response s b ∧ 400 ≤ s)))
    ∧ (requestRetry att).2.1 ≤ 3
    ∧ tenacityWait 1 = 1 ∧ tenacityWait 2 = 2
    ∧ (∀ n, 1 ≤ tenacityWait n ∧ tenacityWait n ≤ 8)
    ∧ (attemptFails (att 1) = false → requestRetry att = (attemptResult (att 1), 1, []))
    ∧ (attemptFails (att 1) = true → attemptFails (att 2) = false →
        requestRetry att = (attemptResult (att 2), 2, [1]))
    ∧ (attemptFails (att 1) = true → attemptFails (att 2) = true →
        requestRetry att = (attemptResult (att 3), 3, [1, 2])) := by
  refine ⟨?_, ?_, rfl, rfl, ?_, ?_, ?_, ?_⟩
  · intro o
    cases o with
    | transport m =>
      simp [attemptFails, attemptResult]
    | response s b =>
      by_cases hs : 400 ≤ s
      · simp only [attemptFails, attemptResult, if_pos hs]
        constructor
        · intro _
          exact Or.inr ⟨s, b, rfl, hs⟩
        · intro _; trivial
      · simp only [attemptFails, attemptResult, if_neg hs]
        constructor
        · intro hfalse; exact absurd hfalse (by simp)
        · rintro (⟨m, hm⟩ | ⟨s', b', hsb, hs'⟩)
          · exact absurd hm (by simp)
          · exfalso
            have : s = s' := by
              injection hsb
            exact hs (this ▸ hs')
  · unfold requestRetry
    cases attemptResult (att 1) with
    | ok r => simp
    | error e =>
      cases attemptResult (att 2) with
      | ok r => simp
      | error e2 => simp
  · intro n
    unfold tenacityWait
    constructor <;> omega
  · intro h1
    cases hres : attemptResult (att 1) with
    | ok r => unfold requestRetry; rw [hres]
    | error e => exfalso; unfold attemptFails at h1; rw [hres] at h1; simp at h1
  · intro h1 h2
    cases hres1 : attemptResult (att 1) with
    | ok r => exfalso; unfold attemptFails at h1; rw [hres1] at h1; simp at h1
    | error e =>
      cases hres2 : attemptResult (att 2) with
      | ok r =>
        unfold requestRetry
        rw [hres1, hres2]
        norm_num [tenacityWait]
      | error e2 => exfalso; unfold attemptFails at h2; rw [hres2] at h2; simp at h2
  · intro h1 h2
    cases hres1 : attemptResult (att 1) with
    | ok r => exfalso; unfold attemptFails at h1; rw [hres1] at h1; simp at h1
    | error e =>
      cases hres2 : attemptResult (att 2) with
      | ok r => exfalso; unfold attemptFails at h2; rw [hres2] at h2; simp at h2
      | error e2 =>
        unfold requestRetry
        rw [hres1, hres2]
        norm_num [tenacityWait]

/-- Attempt stream whose first attempt is a transport failure and whose
later attempts return HTTP 500. -/
def demoAttempts : Nat → AttemptOutcome :=
  fun n => if n = 1 then AttemptOutcome.transport "t1" else AttemptOutcome.response 500 "boom"

/-- Concrete instantiation of `requestRetry_spec`: three failing attempts
surface the final `AmoCRMError` with its status and body. -/
theorem requestRetry_spec_witness :
    requestRetry demoAttempts = (Except.error (ReqError.amoError 500 "boom"), 3, [1, 2]) := by
  have h := (requestRetry_spec demoAttempts).2.2.2.2.2.2.2 (by decide) (by decide)
  exact h.trans (by decide)

/-- C2 counterexample: the stored status 999 resolves to no stage, so
`_current_stage_index` would give stage 0 and a stage-0 lead may advance to
stage index 1; but `change_lead_stage` derives its current index with a `-1`
default instead and rejects the same advance as "stage_out_of_order". -/
theorem changeLeadStage_unresolved_status_cex :
    stageIndexFromStatus demoFunnel demoB999.leadStatusId = none
    ∧ currentStageIndex demoFunnel (some demoB999) = 0
    ∧ (changeLeadStage demoFunnel demoDb0 "u" 200 3).1 = "ok"
    ∧ (changeLeadStage demoFunnel demoDb999 "u" 200 3).1 = "stage_out_of_order" := by
  decide

/-- C2 amended: `_current_stage_index` (used by `update_lead_fields` and
`get_lead_context`) treats an absent binding or an unresolvable last-known
status as stage 0; `change_lead_stage` instead derives its current index
with a `-1` default, so from an unresolvable status only the funnel's first
stage (target index 0) can be entered. -/
theorem currentStage_default_split
    (f : Funnel) (db : CrmDb) (gid : String) (b : CrmBinding)
    (hb : getCrmBinding db gid = some b)
    (lid : Int) (hl : b.leadId = some lid) (hl0 : lid ≠ 0)
    (hst : stageIndexFromStatus f b.leadStatusId = none) :
    currentStageIndex f (some b) = 0
    ∧ currentStageIndex f none = 0
    ∧ currentIdxInt f b = -1
    ∧ (∀ sid now t, stageIndexFromStatus f (some sid) = some t →
        (0 < t → (changeLeadStage f db gid sid now).1 = "stage_out_of_order")
        ∧ (t = 0 → (changeLeadStage f db gid sid now).1 = "ok")) := by
  have hci : currentIdxInt f b = -1 := by
    unfold currentIdxInt
    rw [hst]
  refine ⟨?_, ?_, hci, ?_⟩
  · unfold currentStageIndex
    split
    · rfl
    · cases hls : b.leadStatusId with
      | none => simp [hls]
      | some s =>
        rw [hls] at hst
        simp [hls, hst]
  · unfold currentStageIndex
    split <;> rfl
  · intro sid now t ht
    have hred : changeLeadStage f db gid sid now
        = (if (t : Int) > currentIdxInt f b + 1 then ("stage_out_of_order", [], db)
           else if 0 ≤ currentIdxInt f b ∧ (t : Int) < currentIdxInt f b then
             ("stage_regression_not_allowed", [], db)
           else
             ("ok", [LeadPatch.status lid sid], setCrmBinding db gid none none (some sid) now)) := by
      simp [changeLeadStage, hb, hl, hl0, ht]
    rw [hred, hci]
    constructor
    · intro htpos
      rw [if_pos (by omega : (t : Int) > -1 + 1)]
    · intro ht0
      subst ht0
      rw [if_neg (by omega), if_neg (by omega)]

/-- Concrete instantiation of `currentStage_default_split` on the demo
funnel with unresolvable stored status 999. -/
theorem currentStage_default_split_witness :
    currentStageIndex demoFunnel (some demoB999) = 0
    ∧ currentStageIndex demoFunnel none = 0
    ∧ currentIdxInt demoFunnel demoB999 = -1
    ∧ (∀ sid now t, stageIndexFromStatus demoFunnel (some sid) = some t →
        (0 < t → (changeLeadStage demoFunnel demoDb999 "u" sid now).1 = "stage_out_of_order")
        ∧ (t = 0 → (changeLeadStage demoFunnel demoDb999 "u" sid now).1 = "ok")) :=
  currentStage_default_split demoFunnel demoDb999 "u" demoB999 rfl 1 rfl (by decide) (by decide)

lemma changeLeadStage_track_step (f : Funnel) (gid : String) (db : CrmDb) (sid now : Int) :
    trackIdx f db gid ≤ trackIdx f (changeLeadStage f db gid sid now).2.2 gid
    ∧ trackIdx f (changeLeadStage f db gid sid now).2.2 gid ≤ trackIdx f db gid + 1 := by
  cases hb : getCrmBinding db gid with
  | none =>
    have : (changeLeadStage f db gid sid now).2.2 = db := by
      simp [changeLeadStage, hb]
    rw [this]
    omega
  | some b =>
    cases hl : b.leadId with
    | none =>
      have : (changeLeadStage f db gid sid now).2.2 = db := by
        simp [changeLeadStage, hb, hl]
      rw [this]
      omega
    | some lid =>
      by_cases h0 : lid = 0
      · have : (changeLeadStage f db gid sid now).2.2 = db := by
          simp [changeLeadStage, hb, hl, h0]
        rw [this]
        omega
      · cases ht : stageIndexFromStatus f (some sid) with
        | none =>
          have : (changeLeadStage f db gid sid now).2.2 = db := by
            simp [changeLeadStage, hb, hl, h0, ht]
          rw [this]
          omega
        | some t =>
          have hred : changeLeadStage f db gid sid now
              = (if (t : Int) > currentIdxInt f b + 1 then ("stage_out_of_order", [], db)
                 else if 0 ≤ currentIdxInt f b ∧ (t : Int) < currentIdxInt f b then
                   ("stage_regression_not_allowed", [], db)
                 else
                   ("ok", [LeadPatch.status lid sid],
                     setCrmBinding db gid none none (some sid) now)) := by
            simp [changeLeadStage, hb, hl, h0, ht]
          by_cases h1 : (t : Int) > currentIdxInt f b + 1
          · rw [hred, if_pos h1]
            dsimp only
            omega
          · by_cases h2 : 0 ≤ currentIdxInt f b ∧ (t : Int) < currentIdxInt f b
            · rw [hred, if_neg h1, if_pos h2]
              dsimp only
              omega
            · rw [hred, if_neg h1, if_neg h2]
              have hset := getCrmBinding_set_self db gid b none none (some sid) now hb
              have htr1 : trackIdx f (setCrmBinding db gid none none (some sid) now) gid
                  = (t : Int) := by
                simp [trackIdx, hset, currentIdxInt, mergeBinding, coalesce, ht]
              have htr0 : trackIdx f db gid = currentIdxInt f b := by
                simp [trackIdx, hb]
              rw [htr1, htr0]
              push_neg at h2
              by_cases hc : 0 ≤ currentIdxInt f b
              · have := h2 hc
                omega
              · omega

lemma runChangeCalls_mono (f : Funnel) (gid : String) :
    ∀ (calls : List (Int × Int)) (db : CrmDb),
      trackIdx f db gid ≤ trackIdx f (runChangeCalls f gid db calls) gid := by
  intro calls
  induction calls with
  | nil => intro db; simp [runChangeCalls]
  | cons c rest ih =>
    intro db
    have hstep := (changeLeadStage_track_step f gid db c.1 c.2).1
    have htail := ih (changeLeadStage f db gid c.1 c.2).2.2
    have hrun : runChangeCalls f gid db (c :: rest)
        = runChangeCalls f gid (changeLeadStage f db gid c.1 c.2).2.2 rest := by
      simp [runChangeCalls]
    rw [hrun]
    exact le_trans hstep htail

/-- C1: for a stored binding with a lead, `change_lead_stage` returns
"invalid_stage" when the target status resolves to no stage,
"stage_out_of_order" when the target index exceeds the current index + 1,
"stage_regression_not_allowed" when it is below the (resolved) current
index, and otherwise issues the PATCH, persists the new status into the
binding and returns "ok"; every non-"ok" outcome issues no PATCH and
leaves the table unchanged, and across any sequence of calls the stored
stage index never decreases and a single call advances it by at most one. -/
theorem changeLeadStage_transition_spec
    (f : Funnel) (db : CrmDb) (gid : String) (sid now : Int)
    (b : CrmBinding) (hb : getCrmBinding db gid = some b)
    (lid : Int) (hl : b.leadId = some lid) (hl0 : lid ≠ 0) :
    (stageIndexFromStatus f (some sid) = none →
      changeLeadStage f db gid sid now = ("invalid_stage", [], db))
    ∧ (∀ t, stageIndexFromStatus f (some sid) = some t →
        ((t : Int) > currentIdxInt f b + 1 →
          changeLeadStage f db gid sid now = ("stage_out_of_order", [], db))
        ∧ (0 ≤ currentIdxInt f b → (t : Int) < currentIdxInt f b →
          changeLeadStage f db gid sid now = ("stage_regression_not_allowed", [], db))
        ∧ ((t : Int) ≤ currentIdxInt f b + 1 →
            ¬ (0 ≤ currentIdxInt f b ∧ (t : Int) < currentIdxInt f b) →
          changeLeadStage f db gid sid now
            = ("ok", [LeadPatch.status lid sid], setCrmBinding db gid none none (some sid) now)
          ∧ getCrmBinding (changeLeadStage f db gid sid now).2.2 gid
            = some (mergeBinding b none none (some sid) now)
          ∧ currentIdxInt f b ≤ (t : Int) ∧ (t : Int) ≤ currentIdxInt f b + 1))
    ∧ ((changeLeadStage f db gid sid now).1 ≠ "ok" →
        (changeLeadStage f db gid sid now).2.1 = []
        ∧ (changeLeadStage f db gid sid now).2.2 = db)
    ∧ (∀ (db₀ : CrmDb) (sid₀ now₀ : Int),
        trackIdx f db₀ gid ≤ trackIdx f (changeLeadStage f db₀ gid sid₀ now₀).2.2 gid
        ∧ trackIdx f (changeLeadStage f db₀ gid sid₀ now₀).2.2 gid ≤ trackIdx f db₀ gid + 1)
    ∧ (∀ calls : List (Int × Int),
        trackIdx f db gid ≤ trackIdx f (runChangeCalls f gid db calls) gid) := by
  refine ⟨?_, ?_, ?_, ?_, ?_⟩
  · intro h
    simp [changeLeadStage, hb, hl, hl0, h]
  · intro t ht
    have hred : changeLeadStage f db gid sid now
        = (if (t : Int) > currentIdxInt f b + 1 then ("stage_out_of_order", [], db)
           else if 0 ≤ currentIdxInt f b ∧ (t : Int) < currentIdxInt f b then
             ("stage_regression_not_allowed", [], db)
           else
             ("ok", [LeadPatch.status lid sid],
               setCrmBinding db gid none none (some sid) now)) := by
      simp [changeLeadStage, hb, hl, hl0, ht]
    refine ⟨?_, ?_, ?_⟩
    · intro h1
      rw [hred, if_pos h1]
    · intro hc hlt
      have h1 : ¬ ((t : Int) > currentIdxInt f b + 1) := by omega
      rw [hred, if_neg h1, if_pos ⟨hc, hlt⟩]
    · intro hle hnreg
      have h1 : ¬ ((t : Int) > currentIdxInt f b + 1) := by omega
      have heq : changeLeadStage f db gid sid now
          = ("ok", [LeadPatch.status lid sid],
              setCrmBinding db gid none none (some sid) now) := by
        rw [hred, if_neg h1, if_neg hnreg]
      refine ⟨heq, ?_, ?_, hle⟩
      · rw [heq]
        exact getCrmBinding_set_self db gid b none none (some sid) now hb
      · push_neg at hnreg
        by_cases hc : 0 ≤ currentIdxInt f b
        · have := hnreg hc
          omega
        · omega
  · intro hne
    cases ht : stageIndexFromStatus f (some sid) with
    | none =>
      have : changeLeadStage f db gid sid now = ("invalid_stage", [], db) := by
        simp [changeLeadStage, hb, hl, hl0, ht]
      rw [this]
      exact ⟨rfl, rfl⟩
    | some t =>
      have hred : changeLeadStage f db gid sid now
          = (if (t : Int) > currentIdxInt f b + 1 then ("stage_out_of_order", [], db)
             else if 0 ≤ currentIdxInt f b ∧ (t : Int) < currentIdxInt f b then
               ("stage_regression_not_allowed", [], db)
             else
               ("ok", [LeadPatch.status lid sid],
                 setCrmBinding db gid none none (some sid) now)) := by
        simp [changeLeadStage, hb, hl, hl0, ht]
      by_cases h1 : (t : Int) > currentIdxInt f b + 1
      · rw [hred, if_pos h1]
        exact ⟨rfl, rfl⟩
      · by_cases h2 : 0 ≤ currentIdxInt f b ∧ (t : Int) < currentIdxInt f b
        · rw [hred, if_neg h1, if_pos h2]
          exact ⟨rfl, rfl⟩
        · exfalso
          apply hne
          rw [hred, if_neg h1, if_neg h2]
  · intro db₀ sid₀ now₀
    exact changeLeadStage_track_step f gid db₀ sid₀ now₀
  · intro calls
    exact runChangeCalls_mono f gid calls db

/-- Concrete instantiation of `changeLeadStage_transition_spec`: advancing
the demo stage-0 lead to stage 1's status PATCHes and persists it. -/
theorem changeLeadStage_transition_spec_witness :
    changeLeadStage demoFunnel demoDb0 "u" 200 7
      = ("ok", [LeadPatch.status 1 200], setCrmBinding demoDb0 "u" none none (some 200) 7) :=
  (((changeLeadStage_transition_spec demoFunnel demoDb0 "u" 200 7 demoB0 rfl 1 rfl
      (by decide)).2.1 1 (by decide)).2.2 (by decide) (by decide)).1

/-- Whether one answer item is gated out by the stage gate of
`update_lead_fields`: its question id parses, the question exists, and the
owning stage index exceeds the current stage index. -/
def answerGated (f : Funnel) (cur : Nat) (item : AnswerItem) : Bool :=
  match item.questionId with
  | none => false
  | some qid =>
    match questionsById f qid with
    | none => false
    | some _ => answerGatedIdx f cur qid

/-- The payload entries `update_lead_fields` accepts, as a direct filter
over the answers: known question, not stage-gated, nonempty rendering. -/
def acceptedPayload (f : Funnel) (cur : Nat) (answers : List AnswerItem) : List FieldPayload :=
  answers.filterMap (fun item =>
    match item.questionId with
    | none => none
    | some qid =>
      match questionsById f qid with
      | none => none
      | some q =>
        if answerGatedIdx f cur qid then none
        else if buildCustomFieldValues q item.values = [] then none
        else some ⟨q.id, buildCustomFieldValues q item.values⟩)

lemma updateLoop_eq (f : Funnel) (cur : Nat) :
    ∀ (answers : List AnswerItem) (sk : Bool) (acc : List FieldPayload),
      updateLoop f cur answers sk acc
        = (sk || answers.any (answerGated f cur), acc ++ acceptedPayload f cur answers) := by
  intro answers
  induction answers with
  | nil =>
    intro sk acc
    simp [updateLoop, acceptedPayload]
  | cons item rest ih =>
    intro sk acc
    cases hq : item.questionId with
    | none =>
      rw [show updateLoop f cur (item :: rest) sk acc = updateLoop f cur rest sk acc by
        simp [updateLoop, hq]]
      rw [ih]
      simp [answerGated, hq, acceptedPayload, hq]
    | some qid =>
      cases hqq : questionsById f qid with
      | none =>
        rw [show updateLoop f cur (item :: rest) sk acc = updateLoop f cur rest sk acc by
          simp [updateLoop, hq, hqq]]
        rw [ih]
        simp [answerGated, hq, hqq, acceptedPayload]
      | some q =>
        by_cases hg : answerGatedIdx f cur qid
        · rw [show updateLoop f cur (item :: rest) sk acc = updateLoop f cur rest true acc by
            simp [updateLoop, hq, hqq, hg]]
          rw [ih]
          simp [answerGated, hq, hqq, hg, acceptedPayload]
        · by_cases hcf : buildCustomFieldValues q item.values = []
          · rw [show updateLoop f cur (item :: rest) sk acc = updateLoop f cur rest sk acc by
              simp [updateLoop, hq, hqq, hg, hcf]]
            rw [ih]
            simp [answerGated, hq, hqq, hg, hcf, acceptedPayload]
          · rw [show updateLoop f cur (item :: rest) sk acc
                = updateLoop f cur rest sk (acc ++ [⟨q.id, buildCustomFieldValues q item.values⟩])
                by simp [updateLoop, hq, hqq, hg, hcf]]
            rw [ih]
            simp [answerGated, hq, hqq, hg, hcf, acceptedPayload]

lemma acceptedPayload_stage_le (f : Funnel) (cur : Nat) (answers : List AnswerItem) :
    ∀ fp ∈ acceptedPayload f cur answers,
      ∀ qsi, questionStageIndex f fp.fieldId = some qsi → qsi ≤ cur := by
  intro fp hfp qsi hqsi
  rcases List.mem_filterMap.mp hfp with ⟨item, hmem, hsome⟩
  cases hq : item.questionId with
  | none =>
    simp only [hq] at hsome
    exact Option.noConfusion hsome
  | some qid =>
    simp only [hq] at hsome
    cases hqq : questionsById f qid with
    | none =>
      simp only [hqq] at hsome
      exact Option.noConfusion hsome
    | some q =>
      simp only [hqq] at hsome
      by_cases hg : answerGatedIdx f cur qid
      · rw [if_pos hg] at hsome
        exact Option.noConfusion hsome
      · rw [if_neg hg] at hsome
        by_cases hcf : buildCustomFieldValues q item.values = []
        · rw [if_pos hcf] at hsome
          exact Option.noConfusion hsome
        · rw [if_neg hcf] at hsome
          have hfp' : fp = ⟨q.id, buildCustomFieldValues q item.values⟩ :=
            (Option.some.inj hsome).symm
          have hqid : q.id = qid := by
            simpa using List.find?_some hqq
          rw [hfp'] at hqsi
          have hqsi' : questionStageIndex f qid = some qsi := by
            simpa [hqid] using hqsi
          unfold answerGatedIdx at hg
          rw [hqsi'] at hg
          simpa using hg

/-- C3: `update_lead_fields` returns "lead_not_found" when the binding has
no lead; an answer whose owning question's stage index exceeds the current
stage index is never part of any issued PATCH; with an empty accepted set
the outcome is "stage_not_reached" when something was gated out and
"no_fields" otherwise, with no PATCH; with a nonempty accepted set exactly
one PATCH carrying the type-rendered accepted answers is issued and the
outcome is "ok". -/
theorem updateLeadFields_gating_spec
    (f : Funnel) (db : CrmDb) (gid : String) (answers : List AnswerItem)
    (b : CrmBinding) (hb : getCrmBinding db gid = some b)
    (lid : Int) (hl : b.leadId = some lid) (hl0 : lid ≠ 0) :
    (∀ (db' : CrmDb) (gid' : String), bindingHasLead (getCrmBinding db' gid') = false →
        updateLeadFields f db' gid' answers = ("lead_not_found", []))
    ∧ (acceptedPayload f (currentStageIndex f (some b)) answers = [] →
        updateLeadFields f db gid answers
          = ((if answers.any (answerGated f (currentStageIndex f (some b))) = true
              then "stage_not_reached" else "no_fields"), []))
    ∧ (acceptedPayload f (currentStageIndex f (some b)) answers ≠ [] →
        updateLeadFields f db gid answers
          = ("ok",
              [LeadPatch.fields lid (acceptedPayload f (currentStageIndex f (some b)) answers)]))
    ∧ (∀ lp ∈ (updateLeadFields f db gid answers).2, ∀ fp ∈ lp.fieldsPayload, ∀ qsi,
        questionStageIndex f fp.fieldId = some qsi → qsi ≤ currentStageIndex f (some b)) := by
  have hloop := updateLoop_eq f (currentStageIndex f (some b)) answers false []
  have hred : updateLeadFields f db gid answers
      = (if acceptedPayload f (currentStageIndex f (some b)) answers = [] then
          (if answers.any (answerGated f (currentStageIndex f (some b))) = true
            then "stage_not_reached" else "no_fields", [])
         else
          ("ok",
            [LeadPatch.fields lid (acceptedPayload f (currentStageIndex f (some b)) answers)])) := by
    unfold updateLeadFields
    simp only [hb, hl]
    rw [if_neg hl0]
    rw [hloop]
    simp
  refine ⟨?_, ?_, ?_, ?_⟩
  · intro db' gid' hno
    unfold updateLeadFields
    cases hg : getCrmBinding db' gid' with
    | none => rfl
    | some b' =>
      cases hlid : b'.leadId with
      | none => simp [hlid]
      | some l =>
        unfold bindingHasLead at hno
        simp only [hg] at hno
        simp only [hlid] at hno
        have hl0' : l = 0 := by simpa using hno
        simp [hlid, hl0']
  · intro hemp
    rw [hred, if_pos hemp]
  · intro hne
    rw [hred, if_neg hne]
  · intro lp hlp fp hfp qsi hq
    by_cases hemp : acceptedPayload f (currentStageIndex f (some b)) answers = []
    · rw [hred, if_pos hemp] at hlp
      simp at hlp
    · rw [hred, if_neg hemp] at hlp
      have hlp' : lp
          = LeadPatch.fields lid (acceptedPayload f (currentStageIndex f (some b)) answers) := by
        simpa using hlp
      rw [hlp'] at hfp
      exact acceptedPayload_stage_le f (currentStageIndex f (some b)) answers fp hfp qsi hq

/-- Concrete instantiation of `updateLeadFields_gating_spec`: an answer for
the stage-1 question while the lead sits at stage 0 is gated out and the
call returns "stage_not_reached" with no PATCH. -/
theorem updateLeadFields_gating_spec_witness :
    updateLeadFields demoFunnel demoDb0 "u" [⟨some 22, [CrmVal.vStr "hi"]⟩]
      = ("stage_not_reached", []) := by
  have h := (updateLeadFields_gating_spec demoFunnel demoDb0 "u"
      [⟨some 22, [CrmVal.vStr "hi"]⟩] demoB0 rfl 1 rfl (by decide)).2.1 (by decide)
  exact h.trans (by decide)

lemma nodup_append_singleton {α : Type} (l : List α) (a : α) (h : l.Nodup) (ha : a ∉ l) :
    (l ++ [a]).Nodup := by
  rw [List.nodup_append]
  refine ⟨h, List.nodup_singleton a, ?_⟩
  intro x hx hxa
  have : x = a := by simpa using hxa
  exact ha (this ▸ hx)

lemma msLoop_inv (q : Question) :
    ∀ (vals : List CrmVal) (acc : MsAcc),
      acc.enumVals = acc.seenIds.map CFV.enumId →
      acc.freeVals = acc.seenTexts.map CFV.value →
      acc.seenIds.Nodup →
      acc.seenTexts.Nodup →
      (msLoop q vals acc).enumVals = (msLoop q vals acc).seenIds.map CFV.enumId
      ∧ (msLoop q vals acc).freeVals = (msLoop q vals acc).seenTexts.map CFV.value
      ∧ (msLoop q vals acc).seenIds.Nodup
      ∧ (msLoop q vals acc).seenTexts.Nodup := by
  intro vals
  induction vals with
  | nil =>
    intro acc h1 h2 h3 h4
    exact ⟨h1, h2, h3, h4⟩
  | cons v rest ih =>
    intro acc h1 h2 h3 h4
    cases hr : resolveEnumId q v with
    | some m =>
      by_cases hm : m ∈ acc.seenIds
      · cases hn : normalizeFreeValue v with
        | some t =>
          by_cases htm : t ∈ acc.seenTexts
          · rw [show msLoop q (v :: rest) acc = msLoop q rest acc by
              simp [msLoop, hr, hm, hn, htm]]
            exact ih acc h1 h2 h3 h4
          · rw [show msLoop q (v :: rest) acc = msLoop q rest { acc with
                seenTexts := acc.seenTexts ++ [t], freeVals := acc.freeVals ++ [CFV.value t] } by
              simp [msLoop, hr, hm, hn, htm]]
            exact ih _ h1 (by simp [h2]) h3 (nodup_append_singleton _ _ h4 htm)
        | none =>
          rw [show msLoop q (v :: rest) acc = msLoop q rest acc by
            simp [msLoop, hr, hm, hn]]
          exact ih acc h1 h2 h3 h4
      · rw [show msLoop q (v :: rest) acc = msLoop q rest { acc with
            seenIds := acc.seenIds ++ [m], enumVals := acc.enumVals ++ [CFV.enumId m] } by
          simp [msLoop, hr, hm]]
        exact ih _ (by simp [h1]) h2 (nodup_append_singleton _ _ h3 hm) h4
    | none =>
      cases hn : normalizeFreeValue v with
      | some t =>
        by_cases htm : t ∈ acc.seenTexts
        · rw [show msLoop q (v :: rest) acc = msLoop q rest acc by
            simp [msLoop, hr, hn, htm]]
          exact ih acc h1 h2 h3 h4
        · rw [show msLoop q (v :: rest) acc = msLoop q rest { acc with
              seenTexts := acc.seenTexts ++ [t], freeVals := acc.freeVals ++ [CFV.value t] } by
            simp [msLoop, hr, hn, htm]]
          exact ih _ h1 (by simp [h2]) h3 (nodup_append_singleton _ _ h4 htm)
      | none =>
        rw [show msLoop q (v :: rest) acc = msLoop q rest acc by
          simp [msLoop, hr, hn]]
        exact ih acc h1 h2 h3 h4

lemma msLoop_provenance (q : Question) :
    ∀ (vals : List CrmVal) (acc : MsAcc),
      (∀ m, m ∈ (msLoop q vals acc).seenIds →
        m ∈ acc.seenIds ∨ ∃ v ∈ vals, resolveEnumId q v = some m)
      ∧ (∀ t, t ∈ (msLoop q vals acc).seenTexts →
        t ∈ acc.seenTexts ∨ ∃ v ∈ vals, normalizeFreeValue v = some t) := by
  intro vals
  induction vals with
  | nil =>
    intro acc
    exact ⟨fun m hm => Or.inl hm, fun t ht => Or.inl ht⟩
  | cons v rest ih =>
    intro acc
    constructor
    · intro m hm
      cases hr : resolveEnumId q v with
      | some m' =>
        by_cases hm' : m' ∈ acc.seenIds
        · cases hn : normalizeFreeValue v with
          | some t =>
            by_cases htm : t ∈ acc.seenTexts
            · rw [show msLoop q (v :: rest) acc = msLoop q rest acc by
                simp [msLoop, hr, hm', hn, htm]] at hm
              rcases (ih acc).1 m hm with h | ⟨w, hw, hres⟩
              · exact Or.inl h
              · exact Or.inr ⟨w, List.mem_cons_of_mem v hw, hres⟩
            · rw [show msLoop q (v :: rest) acc = msLoop q rest { acc with
                  seenTexts := acc.seenTexts ++ [t],
                  freeVals := acc.freeVals ++ [CFV.value t] } by
                simp [msLoop, hr, hm', hn, htm]] at hm
              rcases (ih _).1 m hm with h | ⟨w, hw, hres⟩
              · exact Or.inl h
              · exact Or.inr ⟨w, List.mem_cons_of_mem v hw, hres⟩
          | none =>
            rw [show msLoop q (v :: rest) acc = msLoop q rest acc by
              simp [msLoop, hr, hm', hn]] at hm
            rcases (ih acc).1 m hm with h | ⟨w, hw, hres⟩
            · exact Or.inl h
            · exact Or.inr ⟨w, List.mem_cons_of_mem v hw, hres⟩
        · rw [show msLoop q (v :: rest) acc = msLoop q rest { acc with
              seenIds := acc.seenIds ++ [m'], enumVals := acc.enumVals ++ [CFV.enumId m'] } by
            simp [msLoop, hr, hm']] at hm
          rcases (ih _).1 m hm with h | ⟨w, hw, hres⟩
          · rcases List.mem_append.mp h with h' | h'
            · exact Or.inl h'
            · have : m = m' := by simpa using h'
              exact Or.inr ⟨v, List.mem_cons_self v rest, this ▸ hr⟩
          · exact Or.inr ⟨w, List.mem_cons_of_mem v hw, hres⟩
      | none =>
        cases hn : normalizeFreeValue v with
        | some t =>
          by_cases htm : t ∈ acc.seenTexts
          · rw [show msLoop q (v :: rest) acc = msLoop q rest acc by
              simp [msLoop, hr, hn, htm]] at hm
            rcases (ih acc).1 m hm with h | ⟨w, hw, hres⟩
            · exact Or.inl h
            · exact Or.inr ⟨w, List.mem_cons_of_mem v hw, hres⟩
          · rw [show msLoop q (v :: rest) acc = msLoop q rest { acc with
                seenTexts := acc.seenTexts ++ [t],
                freeVals := acc.freeVals ++ [CFV.value t] } by
              simp [msLoop, hr, hn, htm]] at hm
            rcases (ih _).1 m hm with h | ⟨w, hw, hres⟩
            · exact Or.inl h
            · exact Or.inr ⟨w, List.mem_cons_of_mem v hw, hres⟩
        | none =>
          rw [show msLoop q (v :: rest) acc = msLoop q rest acc by
            simp [msLoop, hr, hn]] at hm
          rcases (ih acc).1 m hm with h | ⟨w, hw, hres⟩
          · exact Or.inl h
          · exact Or.inr ⟨w, List.mem_cons_of_mem v hw, hres⟩
    · intro t ht
      cases hr : resolveEnumId q v with
      | some m' =>
        by_cases hm' : m' ∈ acc.seenIds
        · cases hn : normalizeFreeValue v with
          | some t' =>
            by_cases htm : t' ∈ acc.seenTexts
            · rw [show msLoop q (v :: rest) acc = msLoop q rest acc by
                simp [msLoop, hr, hm', hn, htm]] at ht
              rcases (ih acc).2 t ht with h | ⟨w, hw, hres⟩
              · exact Or.inl h
              · exact Or.inr ⟨w, List.mem_cons_of_mem v hw, hres⟩
            · rw [show msLoop q (v :: rest) acc = msLoop q rest { acc with
                  seenTexts := acc.seenTexts ++ [t'],
                  freeVals := acc.freeVals ++ [CFV.value t'] } by
                simp [msLoop, hr, hm', hn, htm]] at ht
              rcases (ih _).2 t ht with h | ⟨w, hw, hres⟩
              · rcases List.mem_append.mp h with h' | h'
                · exact Or.inl h'
                · have : t = t' := by simpa using h'
                  exact Or.inr ⟨v, List.mem_cons_self v rest, this ▸ hn⟩
              · exact Or.inr ⟨w, List.mem_cons_of_mem v hw, hres⟩
          | none =>
            rw [show msLoop q (v :: rest) acc = msLoop q rest acc by
              simp [msLoop, hr, hm', hn]] at ht
            rcases (ih acc).2 t ht with h | ⟨w, hw, hres⟩
            · exact Or.inl h
            · exact Or.inr ⟨w, List.mem_cons_of_mem v hw, hres⟩
        · rw [show msLoop q (v :: rest) acc = msLoop q rest { acc with
              seenIds := acc.seenIds ++ [m'], enumVals := acc.enumVals ++ [CFV.enumId m'] } by
            simp [msLoop, hr, hm']] at ht
          rcases (ih _).2 t ht with h | ⟨w, hw, hres⟩
          · exact Or.inl h
          · exact Or.inr ⟨w, List.mem_cons_of_mem v hw, hres⟩
      | none =>
        cases hn : normalizeFreeValue v with
        | some t' =>
          by_cases htm : t' ∈ acc.seenTexts
          · rw [show msLoop q (v :: rest) acc = msLoop q rest acc by
              simp [msLoop, hr, hn, htm]] at ht
            rcases (ih acc).2 t ht with h | ⟨w, hw, hres⟩
            · exact Or.inl h
            · exact Or.inr ⟨w, List.mem_cons_of_mem v hw, hres⟩
          · rw [show msLoop q (v :: rest) acc = msLoop q rest { acc with
                seenTexts := acc.seenTexts ++ [t'],
                freeVals := acc.freeVals ++ [CFV.value t'] } by
              simp [msLoop, hr, hn, htm]] at ht
            rcases (ih _).2 t ht with h | ⟨w, hw, hres⟩
            · rcases List.mem_append.mp h with h' | h'
              · exact Or.inl h'
              · have : t = t' := by simpa using h'
                exact Or.inr ⟨v, List.mem_cons_self v rest, this ▸ hn⟩
            · exact Or.inr ⟨w, List.mem_cons_of_mem v hw, hres⟩
        | none =>
          rw [show msLoop q (v :: rest) acc = msLoop q rest acc by
            simp [msLoop, hr, hn]] at ht
          rcases (ih acc).2 t ht with h | ⟨w, hw, hres⟩
          · exact Or.inl h
          · exact Or.inr ⟨w, List.mem_cons_of_mem v hw, hres⟩

/-- The spec's example option list: `[{id:10,value:"Yes"},{id:11,value:"No"}]`. -/
def yesNoEnums : List EnumOption := [⟨some 10, some "Yes"⟩, ⟨some 11, some "No"⟩]

/-- A `select` question over `yesNoEnums`. -/
def yesNoSelectQ : Question := ⟨1001, "Choice", "select", yesNoEnums⟩

/-- A `multiselect` question over `yesNoEnums`. -/
def yesNoMultiQ : Question := ⟨1002, "Multi", "multiselect", yesNoEnums⟩

/-- C4: enum resolution on options `[{id:10,value:"Yes"},{id:11,value:"No"}]`:
the integer 10, the numeric string "10" and the case-insensitive text "yes"
resolve to enum id 10 and "No" resolves to 11; an unmatched candidate on a
`select` question falls back to free text; on a `multiselect` question every
candidate is resolved independently and the output is the id-deduplicated
enum matches, in order, followed by the text-deduplicated free-text
fallbacks. -/
theorem enum_resolution_spec :
    resolveEnumId yesNoSelectQ (CrmVal.vInt 10) = some 10
    ∧ resolveEnumId yesNoSelectQ (CrmVal.vStr "10") = some 10
    ∧ resolveEnumId yesNoSelectQ (CrmVal.vStr "yes") = some 10
    ∧ resolveEnumId yesNoSelectQ (CrmVal.vStr "No") = some 11
    ∧ buildCustomFieldValues yesNoSelectQ [CrmVal.vStr "Maybe"] = [CFV.value "Maybe"]
    ∧ (∀ (q : Question) (vals : List CrmVal), q.type = "multiselect" →
        ∃ (ids : List Int) (texts : List String),
          buildCustomFieldValues q vals = ids.map CFV.enumId ++ texts.map CFV.value
          ∧ ids.Nodup ∧ texts.Nodup
          ∧ (∀ m ∈ ids, ∃ v ∈ vals, resolveEnumId q v = some m)
          ∧ (∀ t ∈ texts, ∃ v ∈ vals, normalizeFreeValue v = some t)) := by
  refine ⟨by decide, by decide, by decide, by decide, by decide, ?_⟩
  intro q vals hty
  have hbuild : buildCustomFieldValues q vals
      = (msLoop q vals ⟨[], [], [], []⟩).enumVals ++ (msLoop q vals ⟨[], [], [], []⟩).freeVals := by
    unfold buildCustomFieldValues
    rw [hty]
    rw [if_neg (by decide), if_neg (by decide), if_pos rfl]
  have hinv := msLoop_inv q vals ⟨[], [], [], []⟩ rfl rfl (by simp) (by simp)
  have hprov := msLoop_provenance q vals ⟨[], [], [], []⟩
  refine ⟨(msLoop q vals ⟨[], [], [], []⟩).seenIds, (msLoop q vals ⟨[], [], [], []⟩).seenTexts,
    ?_, hinv.2.2.1, hinv.2.2.2, ?_, ?_⟩
  · rw [hbuild, hinv.1, hinv.2.1]
  · intro m hm
    rcases hprov.1 m hm with h | h
    · simp at h
    · exact h
  · intro t ht
    rcases hprov.2 t ht with h | h
    · simp at h
    · exact h

/-- Concrete instantiation of `enum_resolution_spec` on the multiselect
question: candidates "yes", 11 and "maybe" yield the deduplicated enum
matches followed by the free-text fallback. -/
theorem enum_resolution_spec_witness :
    ∃ (ids : List Int) (texts : List String),
      buildCustomFieldValues yesNoMultiQ [CrmVal.vStr "yes", CrmVal.vInt 11, CrmVal.vStr "maybe"]
        = ids.map CFV.enumId ++ texts.map CFV.value
      ∧ ids.Nodup ∧ texts.Nodup
      ∧ (∀ m ∈ ids, ∃ v ∈ [CrmVal.vStr "yes", CrmVal.vInt 11, CrmVal.vStr "maybe"],
          resolveEnumId yesNoMultiQ v = some m)
      ∧ (∀ t ∈ texts, ∃ v ∈ [CrmVal.vStr "yes", CrmVal.vInt 11, CrmVal.vStr "maybe"],
          normalizeFreeValue v = some t) :=
  enum_resolution_spec.2.2.2.2.2 yesNoMultiQ
    [CrmVal.vStr "yes", CrmVal.vInt 11, CrmVal.vStr "maybe"] rfl
